import Mathlib

set_option maxRecDepth 10000

namespace Twister

/-! Shallow embedding of the twister HTTP server core: the header reader,
the per-connection protocol engine and the response writers from the server
package, and the pattern compiler and path router from the web package.
Helpers of the web package that are not under src (IsSpaceByte, IsTokenByte,
HeaderNameBytes, StringsMap, the status-text table) are modelled from the
spec and marked as such. -/

/-- Modelled from the spec: web.IsSpaceByte is not under src; the spec
treats space, tab, CR and LF as whitespace for trimming and for
continuation detection. -/
def isSpaceB (c : Char) : Bool :=
  c == ' ' || c == '\t' || c == '\r' || c == '\n'

/-- Modelled from the spec: web.IsTokenByte is not under src; HTTP token
characters per the header grammar are alphanumerics plus the usual token
punctuation. -/
def isTokenB (c : Char) : Bool :=
  c.isAlpha || c.isDigit ||
    [Char.ofNat 33, Char.ofNat 35, Char.ofNat 36, Char.ofNat 37, Char.ofNat 38,
     Char.ofNat 39, Char.ofNat 42, Char.ofNat 43, Char.ofNat 45, Char.ofNat 46,
     Char.ofNat 94, Char.ofNat 95, Char.ofNat 96, Char.ofNat 124, Char.ofNat 126].contains c

/-- Model of trimWSLeft from src/unnamed/part_000, on char lists. -/
def trimL (cs : List Char) : List Char := cs.dropWhile (fun c => isSpaceB c)

/-- Model of trimWSRight from src/unnamed/part_000. -/
def trimR (cs : List Char) : List Char := (cs.reverse.dropWhile (fun c => isSpaceB c)).reverse

/-- Modelled from the spec: web.HeaderNameBytes canonicalization is not
under src; upper-case the first letter and each letter after a dash,
lower-case the rest. -/
def canonAux : Bool → List Char → List Char
  | _, [] => []
  | up, c :: rest => (if up then c.toUpper else c.toLower) :: canonAux (c == '-') rest

/-- Canonical header name of a raw key. -/
def canonName (cs : List Char) : String := (canonAux true cs).asString

/-- Modelled from the spec: web.StringsMap is not under src; an ordered
multi-valued mapping from canonical header names to value sequences,
rendered as an association list.  Go map iteration order across distinct
keys is unspecified; the list order stands in for one deterministic order. -/
abbrev SMap := List (String × List String)

/-- First value stored under a key, as StringsMap.Get reports it. -/
def SMap.get : SMap → String → Option String
  | [], _ => none
  | (k, vs) :: rest, key => if k = key then vs.head? else SMap.get rest key

/-- Key membership, as a Go map membership test. -/
def SMap.hasKey : SMap → String → Bool
  | [], _ => false
  | (k, _) :: rest, key => k == key || SMap.hasKey rest key

/-- Model of StringsMap.Append: add one value at the end of a key's value
sequence, creating the key when absent. -/
def SMap.append : SMap → String → String → SMap
  | [], key, v => [(key, [v])]
  | (k, vs) :: rest, key, v =>
    if k = key then (k, vs ++ [v]) :: rest else (k, vs) :: SMap.append rest key v

/-- Model of StringsMap.Set: replace a key's values with a single value. -/
def SMap.set : SMap → String → String → SMap
  | [], key, v => [(key, [v])]
  | (k, vs) :: rest, key, v =>
    if k = key then (k, [v]) :: rest else (k, vs) :: SMap.set rest key v

/-- Model of deleting a key, as the Go map delete form used on 304. -/
def SMap.del (m : SMap) (key : String) : SMap :=
  m.filter (fun kv => !(kv.1 == key))

/-- Value sequence stored under a key (empty when absent), as indexing the
Go map reports it. -/
def SMap.getValues : SMap → String → List String
  | [], _ => []
  | (k, vs) :: rest, key => if k = key then vs else SMap.getValues rest key

/-- In-place overwrite of the last value of a key, as the continuation code
mutates the map's value slice. -/
def SMap.setLast : SMap → String → String → SMap
  | [], _, _ => []
  | (k, vs) :: rest, key, v =>
    if k = key then (k, vs.dropLast ++ [v]) :: rest else (k, vs) :: SMap.setLast rest key v

/-- Model of strings.ToLower from the Go standard library, on the char
list representation. -/
def lowerStr (s : String) : String := (s.toList.map Char.toLower).asString

/-- Decimal value of a digit list. -/
def digitsVal (cs : List Char) : Nat :=
  cs.foldl (fun a c => a * 10 + (c.toNat - 48)) 0

/-- Model of strconv.Atoi from the Go standard library: an optional sign
followed by decimal digits; anything else is an error. -/
def atoi (s : String) : Option Int :=
  match s.toList with
  | [] => none
  | '+' :: ds => if !ds.isEmpty && ds.all (fun c => c.isDigit) then some (Int.ofNat (digitsVal ds)) else none
  | '-' :: ds => if !ds.isEmpty && ds.all (fun c => c.isDigit) then some (-(Int.ofNat (digitsVal ds))) else none
  | ds => if ds.all (fun c => c.isDigit) then some (Int.ofNat (digitsVal ds)) else none

/-- Model of strconv.Itob with base 16: lower-case hexadecimal digits. -/
def hexOf (n : Nat) : String := (Nat.toDigits 16 n).asString

/-- Modelled from the spec: the status-text table web.StatusText is not
under src; standard HTTP reason phrases for the codes this development
evaluates concretely. -/
def statusText (s : Nat) : Option String :=
  if s = 100 then some "Continue"
  else if s = 200 then some "OK"
  else if s = 301 then some "Moved Permanently"
  else if s = 302 then some "Found"
  else if s = 304 then some "Not Modified"
  else if s = 404 then some "Not Found"
  else if s = 405 then some "Method Not Allowed"
  else none

/-- Line-terminator stripping as readHeaders performs it: drop a final CRLF
when the second-to-last byte is CR, else drop the final byte.  An empty
line cannot come out of ReadSlice; it maps to the empty list here. -/
def stripEol (cs : List Char) : List Char :=
  match cs.reverse with
  | [] => []
  | _last :: pre =>
    match pre with
    | [] => []
    | c2 :: pre2 => if c2 == '\r' then pre2.reverse else (c2 :: pre2).reverse

/-- Model of the header-reading loop readHeaders in src/unnamed/part_000
lines 97-186.  Input is the list of raw lines as bufio.ReadSlice delivers
them, each including its terminator; the result carries the parsed header
map and the unconsumed lines.  Go panics that the loop could hit (indexing
a missing last value, or indexing an empty post-key slice) are rendered as
errors. -/
def readHeadersAux : List String → String → Nat → SMap → Except String (SMap × List String)
  | [], _, _, _ => Except.error "eof before end of headers"
  | line :: rest, lastKey, cnt, hdr =>
    let p := stripEol line.toList
    if p.isEmpty then Except.ok (hdr, rest)
    else if p.length > 4096 then Except.error "header line too long"
    else
      match p with
      | [] => Except.error "unreachable"
      | c :: _ =>
        if isSpaceB c then
          if lastKey = "" then Except.error "header continuation before first header"
          else
            let q := trimL (trimR p)
            if q.isEmpty then readHeadersAux rest lastKey cnt hdr
            else
              match (SMap.getValues hdr lastKey).getLast? with
              | none => Except.error "panic: no value to continue"
              | some v =>
                let v2 := v ++ " " ++ q.asString
                if v2.length > 4096 then Except.error "header value too long"
                else readHeadersAux rest lastKey cnt (SMap.setLast hdr lastKey v2)
        else
          let cnt2 := cnt + 1
          if cnt2 > 256 then Except.error "too many headers"
          else
            let i := (p.takeWhile isTokenB).length
            if i < 1 then Except.error "missing header key"
            else
              let key := canonName (p.take i)
              let p2 := trimL (p.drop i)
              match p2 with
              | [] => Except.error "panic: index out of range"
              | c2 :: p3 =>
                if c2 ≠ ':' then Except.error "header missing colon"
                else
                  let v := (trimR (trimL p3)).asString
                  readHeadersAux rest key cnt2 (SMap.append hdr key v)

/-- Header-block parser over a list of raw lines, starting from the fresh
state conn.prepare passes in. -/
def readHeaders (lines : List String) : Except String (SMap × List String) :=
  readHeadersAux lines "" 0 []

/-- Classification of a raw line as a new (distinct) header line: nonempty
after terminator stripping and not starting with whitespace. -/
def isNewHeaderLine (l : String) : Bool :=
  match stripEol l.toList with
  | [] => false
  | c :: _ => !(isSpaceB c)

/-- Per-connection protocol state, the fields of the conn struct in
src/unnamed/part_000 that the embedded operations touch.  The buffered
reader is a remaining byte count, the buffered writer a pending string, and
the network stream a transcript of the write calls issued to it. -/
structure Conn where
  atLeastHttp11 : Bool
  closeAfterResponse : Bool
  chunked : Bool
  hijacked : Bool
  respondCalled : Bool
  contentLength : Int
  requestAvail : Int
  responseAvail : Int
  write100Continue : Bool
  requestErr : Option String
  responseErr : Option String
  brRem : Nat
  buf : String
  out : List String
deriving DecidableEq

/-- Expectation of a 100-continue preface, as conn.prepare derives it from
the Expect header. -/
def expects100 (hdr : SMap) : Bool :=
  match SMap.get hdr "Expect" with
  | some s => lowerStr s == "100-continue"
  | none => false

/-- Model of conn.prepare (src/unnamed/part_000 lines 188-228) after the
request line and header block have been parsed: digest the Content-Length,
Expect and Connection headers and the protocol version into the fresh
connection state for one request. -/
def prepareCore (hdr : SMap) (maj mn : Nat) (brRem : Nat) : Except String Conn :=
  let base : Conn := { atLeastHttp11 := false, closeAfterResponse := false, chunked := false,
                       hijacked := false, respondCalled := false, contentLength := -1,
                       requestAvail := 0, responseAvail := 0, write100Continue := false,
                       requestErr := none, responseErr := none, brRem := brRem, buf := "",
                       out := [] }
  let withCL : Except String Conn :=
    match SMap.get hdr "Content-Length" with
    | some s =>
      match atoi s with
      | none => Except.error "bad content length"
      | some n => Except.ok { base with contentLength := n, requestAvail := n }
    | none => Except.ok base
  match withCL with
  | Except.error e => Except.error e
  | Except.ok c =>
    let c := { c with write100Continue := expects100 hdr }
    let atl : Bool := decide (1 < maj ∨ (maj = 1 ∧ 1 ≤ mn))
    let c := { c with atLeastHttp11 := atl }
    let c :=
      if atl then
        match SMap.get hdr "Connection" with
        | some s => if lowerStr s == "close" then { c with closeAfterResponse := true } else c
        | none => c
      else { c with closeAfterResponse := true }
    Except.ok c

/-- Interim response bytes for the 100-continue handshake. -/
def continue100 : String := "HTTP/1.1 100 Continue\r\n\r\n"

/-- Model of requestReader.Read (src/unnamed/part_000 lines 234-253).  The
argument is the caller's buffer length; reads from the buffered stream are
modelled as succeeding with as many bytes as are available. -/
def bodyRead (plen : Nat) (c : Conn) : (Nat × Option String) × Conn :=
  match c.requestErr with
  | some e => ((0, some e), c)
  | none =>
    let c :=
      if c.write100Continue then
        { c with write100Continue := false, out := c.out ++ [continue100] }
      else c
    if c.requestAvail ≤ 0 then
      ((0, some "EOF"), { c with requestErr := some "EOF" })
    else
      let m := min plen c.requestAvail.toNat
      let n := min m c.brRem
      ((n, none), { c with requestAvail := c.requestAvail - (n : Int), brRem := c.brRem - n })

/-- Folding a sequence of body reads with the given buffer lengths. -/
def readMany (c : Conn) (sizes : List Nat) : Conn :=
  sizes.foldl (fun acc n => (bodyRead n acc).2) c

/-- Number of 100-continue interim responses on the stream transcript. -/
def countContinue (c : Conn) : Nat :=
  (c.out.filter (fun s => s == continue100)).length

/-- Serialization of the header lines, one Name-colon-value line per value,
in the association-list order. -/
def serializeHeaderLines : SMap → String
  | [] => ""
  | (k, vs) :: rest =>
    (vs.foldl (fun acc v => acc ++ k ++ ": " ++ v ++ "\r\n") "") ++ serializeHeaderLines rest

/-- Model of the status-line and header serialization of conn.Respond
(src/unnamed/part_000 lines 296-321). -/
def serializeResponse (http11 : Bool) (status : Nat) (hdr : SMap) : String :=
  (if http11 then "HTTP/1.1" else "HTTP/1.0") ++ " " ++ toString status ++ " " ++
    (match statusText status with
     | some t => t
     | none => "status code " ++ toString status) ++ "\r\n" ++
    serializeHeaderLines hdr ++ "\r\n"

/-- Model of conn.Respond (src/unnamed/part_000 lines 255-332).  Go mutates
the caller's header map in place; the purified model returns the final map
next to the body-sink indicator and the new connection state.  The
buffered writer is modelled at the bufio contract level: for the identity
path the serialized head is buffered, for the chunked path it is written
straight to the stream. -/
def respond (status : Nat) (hdr : SMap) (c : Conn) : Option Unit × SMap × Conn :=
  if c.hijacked then (none, hdr, c)
  else if c.respondCalled then (none, hdr, c)
  else
    let c := { c with respondCalled := true, chunked := true,
                      requestErr := some "response started" }
    let c := if 0 < c.requestAvail then { c with closeAfterResponse := true } else c
    let st :=
      if status = 304 then
        (SMap.del (SMap.del hdr "Content-Type") "Transfer-Encoding", { c with chunked := false })
      else (hdr, c)
    let hdr := st.1
    let c := st.2
    let st2 :=
      if c.closeAfterResponse then
        (SMap.set hdr "Connection" "close", { c with chunked := false })
      else (hdr, c)
    let hdr := st2.1
    let c := st2.2
    let c := { c with responseAvail := 0 }
    let c :=
      match SMap.get hdr "Content-Length" with
      | some s => { c with responseAvail := (atoi s).getD 0, chunked := false }
      | none => c
    let c := if SMap.hasKey hdr "Transfer-Encoding" then { c with chunked := false } else c
    let hdr := if c.chunked then SMap.set hdr "Transfer-Encoding" "chunked" else hdr
    let bbytes := serializeResponse c.atLeastHttp11 status hdr
    if c.chunked then
      (some (), hdr, { c with buf := "", out := c.out ++ [bbytes] })
    else
      (some (), hdr, { c with buf := bbytes })

/-- Model of identityWriter.Write (src/unnamed/part_000 lines 363-371):
forward the bytes to the stream and decrement the remaining-length
counter; stream writes are modelled as succeeding in full. -/
def identityWrite (p : String) (c : Conn) : (Nat × Option String) × Conn :=
  match c.responseErr with
  | some e => ((0, some e), c)
  | none =>
    ((p.length, none),
     { c with out := c.out ++ [p], responseAvail := c.responseAvail - (p.length : Int) })

/-- Model of chunkedWriter.Write (src/unnamed/part_000 lines 377-395): a
zero-length write is a no-op, a non-empty write emits the hexadecimal size
line, the bytes and a trailing CRLF, and the call returns 0 as the written
count; stream writes are modelled as succeeding. -/
def chunkedWrite (p : String) (c : Conn) : (Nat × Option String) × Conn :=
  match c.responseErr with
  | some e => ((0, some e), c)
  | none =>
    if p.length = 0 then ((0, none), c)
    else
      ((0, none), { c with out := c.out ++ [hexOf p.length ++ "\r\n", p, "\r\n"] })

/-- Model of a write to the buffered response body, at the bufio contract
level: the bytes accumulate until a flush; capacity-triggered early
spills are not modelled, an explicit flush moves everything at once. -/
def bwWrite (p : String) (c : Conn) : Conn := { c with buf := c.buf ++ p }

/-- Model of flushing the buffered writer selected at commit time: the
pending bytes go through the identity or the chunked writer in one call. -/
def bwFlush (c : Conn) : Conn :=
  if c.buf.isEmpty then c
  else if c.chunked then { (chunkedWrite c.buf c).2 with buf := "" }
  else { (identityWrite c.buf c).2 with buf := "" }

/-- Model of conn.finish (src/unnamed/part_000 lines 339-357): synthesize a
default response when none was committed, force close-after-response when
the remaining-length counter is nonzero, flush, terminate chunked framing,
and latch the response-closed error. -/
def finish (c : Conn) : Conn :=
  let c :=
    if c.respondCalled then c
    else (respond 200 [("Content-Type", ["text/html charset=utf-8"])] c).2.2
  let c := if c.responseAvail ≠ 0 then { c with closeAfterResponse := true } else c
  let c := bwFlush c
  let c := if c.chunked then { c with out := c.out ++ ["0\r\n\r\n"] } else c
  if c.responseErr = none then { c with responseErr := some "response body closed" } else c

/-- Model of conn.Hijack (src/unnamed/part_000 lines 334-336): the body is
a bare return of the named zero values, so the call yields no connection,
no buffered pair and no error, and the connection state is untouched. -/
def hijack (c : Conn) : (Option Unit × Option Unit × Option String) × Conn :=
  ((none, none, none), c)

/-- Reachable fresh connection state: what prepareCore yields for a plain
HTTP/1.1 request with no body and no special headers. -/
def reqConn : Conn where
  atLeastHttp11 := true
  closeAfterResponse := false
  chunked := false
  hijacked := false
  respondCalled := false
  contentLength := -1
  requestAvail := 0
  responseAvail := 0
  write100Continue := false
  requestErr := none
  responseErr := none
  brRem := 0
  buf := ""
  out := []

/-- Concrete header set declaring a 64-byte response body. -/
def cexHeader : SMap := [("Content-Length", ["64"])]

/-- First application body write of the mid-flush scenario: 25 bytes. -/
def cexWrite1 : String := String.mk (List.replicate 25 'a')

/-- Second application body write of the mid-flush scenario: 39 bytes. -/
def cexWrite2 : String := String.mk (List.replicate 39 'b')

/-- Final connection state of the mid-flush scenario: commit with declared
length 64, write 25 bytes, flush the body sink, write 39 more bytes (64
body bytes in total, exactly the declared length), then finalize. -/
def cexFinal : Conn :=
  finish (bwWrite cexWrite2 (bwFlush (bwWrite cexWrite1 (respond 200 cexHeader reqConn).2.2)))

/-- Handler outcomes of Router.find: an application handler registered
under some tag, the trailing-slash redirect handler, or a routerError
status responder. -/
inductive RHandler where
  | user : Nat → RHandler
  | addSlashH : RHandler
  | routerError : Nat → RHandler
deriving DecidableEq

/-- Model of a compiled route (src/web/router.go lines 54-59).  The
compiled regexp is abstracted to a capture function returning the submatch
values with the full match dropped, as find consumes them. -/
structure Route where
  addSlash : Bool
  regexpMatch : String → Option (List String)
  names : List String
  handlers : List (String × Nat)

/-- Method table lookup, as indexing the Go handler map. -/
def lookupH (hs : List (String × Nat)) (method : String) : Option Nat :=
  match hs.find? (fun kv => kv.1 == method) with
  | some kv => some kv.2
  | none => none

/-- Last character of a path, as the index expression path of find reads
it; Go would panic on an empty path, the model returns NUL there. -/
def lastChar (s : String) : Char := s.toList.getLastD (Char.ofNat 0)

/-- URL-unescaping of every captured value with early exit on failure, as
the loop in find performs it; http.URLUnescape itself is a standard-library
collaborator and is passed in as a function. -/
def unescapeAll (u : String → Option String) : List String → Option (List String)
  | [] => some []
  | v :: vs =>
    match u v with
    | none => none
    | some w =>
      match unescapeAll u vs with
      | none => none
      | some ws => some (w :: ws)

/-- Model of Router.find (src/web/router.go lines 154-185). -/
def find (u : String → Option String) : List Route → String → String → RHandler × List String × List String
  | [], _, _ => (RHandler.routerError 404, [], [])
  | r :: rest, path, method =>
    match r.regexpMatch path with
    | none => find u rest path method
    | some values =>
      if r.addSlash = true ∧ lastChar path ≠ '/' then (RHandler.addSlashH, [], [])
      else
        match unescapeAll u values with
        | none => (RHandler.routerError 404, [], [])
        | some values2 =>
          match lookupH r.handlers method with
          | some h => (RHandler.user h, r.names, values2)
          | none =>
            match (if method = "HEAD" then lookupH r.handlers "GET" else none) with
            | some h => (RHandler.user h, r.names, values2)
            | none =>
              match lookupH r.handlers "*" with
              | some h => (RHandler.user h, r.names, values2)
              | none => (RHandler.routerError 405, [], [])

/-- Specification-side restatement of the resolution order of spec section
4.5 step 5: exact method match, else the GET handler when the method is
HEAD, else the wildcard handler, else 405 Method Not Allowed. -/
def resolveBySpec (hs : List (String × Nat)) (names values : List String) (method : String) :
    RHandler × List String × List String :=
  match lookupH hs method with
  | some h => (RHandler.user h, names, values)
  | none =>
    if method = "HEAD" then
      match lookupH hs "GET" with
      | some h => (RHandler.user h, names, values)
      | none =>
        match lookupH hs "*" with
        | some h => (RHandler.user h, names, values)
        | none => (RHandler.routerError 405, [], [])
    else
      match lookupH hs "*" with
      | some h => (RHandler.user h, names, values)
      | none => (RHandler.routerError 405, [], [])

/-- Model of addSlash (src/web/router.go lines 143-150): the redirect
target is the path plus a trailing slash, with the raw query appended when
present. -/
def addSlashPath (path rawQuery : String) : String :=
  let p := path ++ "/"
  if 0 < rawQuery.length then p ++ "?" ++ rawQuery else p

/-- Redirect issued by the addSlash handler: target and permanence flag as
passed to Request.Redirect. -/
def addSlashAction (path rawQuery : String) : String × Bool :=
  (addSlashPath path rawQuery, true)

/-- Concrete route for the router witnesses: GET-only on the path slash-x. -/
def demoRoute : Route where
  addSlash := false
  regexpMatch := fun p => if p = "/x" then some [] else none
  names := []
  handlers := [("GET", 3)]

/-- Concrete trailing-slash route for the C8 witness. -/
def demoSlashRoute : Route where
  addSlash := true
  regexpMatch := fun p => if p = "/files" ∨ p = "/files/" then some [] else none
  names := []
  handlers := [("GET", 7)]

/-- Name characters of a pattern placeholder. -/
def phNameChar (c : Char) : Bool := c.isAlpha || c.isDigit || c == '_'

/-- Match of the parameter regexp at the head of the input: a left angle
bracket, a run of name characters, optionally a colon followed by a run of
non-right-angle characters, then the right angle bracket.  Returns the
name, the optional sub-expression (without its colon) and the rest. -/
def matchPH (cs : List Char) : Option (List Char × Option (List Char) × List Char) :=
  match cs with
  | '<' :: rest =>
    let name := rest.takeWhile phNameChar
    (match rest.dropWhile phNameChar with
     | '>' :: r3 => some (name, none, r3)
     | ':' :: r3 =>
       (match r3.dropWhile (fun c => !(c == '>')) with
        | '>' :: r4 => some (name, some (r3.takeWhile (fun c => !(c == '>'))), r4)
        | _ => none)
     | _ => none)
  | _ => none

/-- Leftmost occurrence of the parameter pattern, as
FindStringSubmatchIndex locates it: the prefix before the match, the name,
the optional sub-expression and the rest after the match. -/
def findPH : List Char → Option (List Char × List Char × Option (List Char) × List Char)
  | [] => none
  | c :: cs =>
    match matchPH (c :: cs) with
    | some (name, rx, rest) => some ([], name, rx, rest)
    | none =>
      match findPH cs with
      | some (pre, name, rx, rest) => some (c :: pre, name, rx, rest)
      | none => none

/-- Progress fact for the placeholder matcher: a match consumes at least
the surrounding angle brackets. -/
def matchPH_rest_lt (cs name : List Char) (rx : Option (List Char)) (rest : List Char)
    (h : matchPH cs = some (name, rx, rest)) : rest.length < cs.length := by
  match cs with
  | [] => simp [matchPH] at h
  | c :: cs0 =>
    by_cases hc : c = '<'
    · subst hc
      simp only [matchPH] at h
      have hsplit : cs0.takeWhile phNameChar ++ cs0.dropWhile phNameChar = cs0 :=
        List.takeWhile_append_dropWhile _ _
      match hd : cs0.dropWhile phNameChar with
      | [] => rw [hd] at h; simp at h
      | d :: r3 =>
        rw [hd] at h
        by_cases hgt : d = '>'
        · subst hgt
          simp at h
          obtain ⟨_, _, hrest⟩ := h
          subst hrest
          have : r3.length < cs0.length + 1 := by
            have h1 : ((cs0.takeWhile phNameChar) ++ ('>' :: r3)).length = cs0.length := by
              rw [hd] at hsplit; rw [hsplit]
            simp [List.length_append] at h1
            omega
          simpa using this
        · by_cases hco : d = ':'
          · subst hco
            simp at h
            have hsplit2 : r3.takeWhile (fun c => !(c == '>')) ++
                r3.dropWhile (fun c => !(c == '>')) = r3 :=
              List.takeWhile_append_dropWhile _ _
            match hd2 : r3.dropWhile (fun c => !(c == '>')) with
            | [] => rw [hd2] at h; simp at h
            | e :: r4 =>
              rw [hd2] at h
              by_cases hgt2 : e = '>'
              · subst hgt2
                simp at h
                obtain ⟨_, _, hrest⟩ := h
                subst hrest
                have h1 : ((cs0.takeWhile phNameChar) ++ (':' :: r3)).length = cs0.length := by
                  rw [hd] at hsplit; rw [hsplit]
                have h2 : ((r3.takeWhile (fun c => !(c == '>'))) ++ ('>' :: r4)).length = r3.length := by
                  rw [hd2] at hsplit2; rw [hsplit2]
                simp [List.length_append] at h1 h2
                simp only [List.length_cons]
                omega
              · have : (e :: r4).head? ≠ some '>' := by simp [hgt2]
                simp [hgt2] at h
          · simp [hgt, hco] at h
    · simp [matchPH, hc] at h

/-- Progress fact for the leftmost placeholder search. -/
def findPH_rest_lt (l : List Char) :
    ∀ pre name rx rest, findPH l = some (pre, name, rx, rest) → rest.length < l.length := by
  induction l with
  | nil => intro pre name rx rest h; simp [findPH] at h
  | cons c cs ih =>
    intro pre name rx rest h
    rw [findPH] at h
    match hm : matchPH (c :: cs) with
    | some (name0, rx0, rest0) =>
      rw [hm] at h
      simp at h
      obtain ⟨_, _, _, hrest⟩ := h
      subst hrest
      exact matchPH_rest_lt _ _ _ _ hm
    | none =>
      rw [hm] at h
      match hf : findPH cs with
      | some (pre1, name1, rx1, rest1) =>
        rw [hf] at h
        simp at h
        obtain ⟨_, _, _, hrest⟩ := h
        subst hrest
        have := ih pre1 name1 rx1 rest1 hf
        simp only [List.length_cons]
        omega
      | none => rw [hf] at h; simp at h

/-- Count of named placeholders in a pattern, scanning exactly as the
compiler loop does.  The fuel argument only bounds the recursion; every
step strictly shrinks the input, so any fuel above the input length gives
the same result (countNamedAux_fuel below). -/
def countNamedAux : Nat → List Char → Nat
  | 0, _ => 0
  | fuel + 1, cs =>
    match findPH cs with
    | none => 0
    | some (_, name, _, rest) => (if name.isEmpty then 0 else 1) + countNamedAux fuel rest

/-- Count of named placeholders in a pattern. -/
def countNamed (cs : List Char) : Nat := countNamedAux (cs.length + 1) cs

/-- Regexp metacharacters, for the QuoteMeta model. -/
def quoteSpecial (c : Char) : Bool :=
  [Char.ofNat 92, '.', '+', '*', '?', '(', ')', '|', '[', ']',
   Char.ofNat 123, Char.ofNat 125, '^', '$'].contains c

/-- Model of regexp.QuoteMeta from the Go standard library: escape regexp
metacharacters with a backslash. -/
def quoteMeta (cs : List Char) : List Char :=
  cs.foldr (fun c acc => if quoteSpecial c then Char.ofNat 92 :: c :: acc else c :: acc) []

/-- Model of the loop of compilePattern (src/web/router.go lines 64-98).
The parameter-name array is allocated with fixed length 8 and written by
index without growing; writing the ninth name is an index-out-of-range
panic, rendered as none.  The fuel argument only bounds the recursion;
every step strictly shrinks the input, so with any fuel above the input
length the zero-fuel case is unreachable (compileAux_fuel below). -/
def compileAux : Nat → List Char → String → Nat → List String → List Char →
    Option (List Char × List String)
  | 0, _, _, _, _, _ => none
  | fuel + 1, pattern, sep, i, names, buf =>
    match findPH pattern with
    | none => some (buf ++ quoteMeta pattern, names.take i)
    | some (pre, name, rx, rest) =>
      let buf2 := buf ++ quoteMeta pre
      let rxPart : List Char :=
        match rx with
        | some r => r
        | none => ('[' :: '^' :: sep.toList) ++ [']', '+']
      if name.isEmpty then
        compileAux fuel rest sep i names (buf2 ++ rxPart)
      else
        if i < 8 then
          compileAux fuel rest sep (i + 1) (names.set i name.asString)
            (buf2 ++ '(' :: (rxPart ++ [')']))
        else none

/-- Model of compilePattern (src/web/router.go lines 64-98): anchored
expression plus the first i parameter names. -/
def compilePattern (pattern : String) (addSlash : Bool) (sep : String) :
    Option (String × List String) :=
  match compileAux (pattern.toList.length + 1) pattern.toList sep 0 (List.replicate 8 "") ['^'] with
  | none => none
  | some (buf, names) =>
    some (((if addSlash then buf ++ ['?'] else buf) ++ ['$']).asString, names)

/-- Model of the pattern-validating and compiling part of Router.Register
(src/web/router.go lines 107-135): an empty pattern or one not starting
with a slash is a registration panic, and a compiler panic propagates;
none stands for a panic. -/
def registerPattern (pattern : String) : Option (Bool × String × List String) :=
  match pattern.toList with
  | [] => none
  | c :: _ =>
    if c ≠ '/' then none
    else
      let aS := lastChar pattern == '/'
      match compilePattern pattern aS "/" with
      | none => none
      | some (rx, names) => some (aS, rx, names)

/-- Routes whose expressions reject the path are skipped in order. -/
theorem find_skip (u : String → Option String) (rs rs2 : List Route) (path method : String)
    (h : ∀ r ∈ rs, r.regexpMatch path = none) :
    find u (rs ++ rs2) path method = find u rs2 path method := by
  induction rs with
  | nil => rfl
  | cons r rest ih =>
    have hr : r.regexpMatch path = none := h r (by simp)
    simp only [List.cons_append, find, hr]
    exact ih (fun r0 hr0 => h r0 (by simp [hr0]))

/-- A path no route matches resolves to the 404 responder. -/
theorem find_nomatch (u : String → Option String) (rs : List Route) (path method : String)
    (h : ∀ r ∈ rs, r.regexpMatch path = none) :
    find u rs path method = (RHandler.routerError 404, [], []) := by
  induction rs with
  | nil => rfl
  | cons r rest ih =>
    have hr : r.regexpMatch path = none := h r (by simp)
    simp only [find, hr]
    exact ih (fun r0 hr0 => h r0 (by simp [hr0]))

/-- Claim C2: the connection-takeover operation is supposed to return the
underlying network connection with the bytes already buffered, after which
the engine never touches the stream and skips finalization; the code of
conn.Hijack is a bare return, so the call yields only zero values and
leaves the connection state (in particular the hijacked flag that
serveConnection consults before finalizing) untouched. -/
theorem hijack_returns_nothing (c : Conn) :
    (hijack c).1 = (none, none, none) ∧ (hijack c).2 = c ∧
      (hijack c).2.hijacked = c.hijacked :=
  ⟨rfl, rfl, rfl⟩

/-- Overwriting the last value of a present key makes the new value that
key's last value. -/
theorem SMap.getLast_setLast : ∀ (m : SMap) (k v v2 : String),
    (SMap.getValues m k).getLast? = some v →
    (SMap.getValues (SMap.setLast m k v2) k).getLast? = some v2 := by
  intro m
  induction m with
  | nil => intro k v v2 h; simp [SMap.getValues] at h
  | cons kv0 rest ih =>
    obtain ⟨k0, vs0⟩ := kv0
    intro k v v2 h
    by_cases hk : k0 = k
    · simp only [SMap.getValues, SMap.setLast, hk, eq_self_iff_true, ite_true, if_true] at h ⊢
      exact List.getLast?_concat _
    · simp only [SMap.getValues, SMap.setLast, hk, ite_false, if_false] at h ⊢
      exact ih k v v2 h

/-- Claim C7: every line whose stripped content begins with a space or tab
is folded into the most recently seen header's last value: one loop step
on such a line either skips it (when its trimmed content is empty, as the
source does) or replaces the last value of the current key with the
existing value and the whitespace-trimmed continuation content joined by
exactly one space, and that joined string is then the key's last value;
consequently the block Cookie colon a-comma, continuation b, parses to
the single Cookie value a-comma-space-b, with either a space or a tab
lead-in. -/
theorem readHeaders_continuation_fold
    (line : String) (rest0 : List String) (k : String) (cnt : Nat) (hdr : SMap)
    (c : Char) (tl : List Char) (v : String)
    (hp : stripEol line.toList = c :: tl) (hsp : isSpaceB c = true)
    (hlen : (c :: tl).length ≤ 4096) (hlk : k ≠ "")
    (hv : (SMap.getValues hdr k).getLast? = some v)
    (hlen2 : (v ++ " " ++ (trimL (trimR (c :: tl))).asString).length ≤ 4096) :
    (readHeadersAux (line :: rest0) k cnt hdr =
      if (trimL (trimR (c :: tl))).isEmpty then readHeadersAux rest0 k cnt hdr
      else readHeadersAux rest0 k cnt
        (SMap.setLast hdr k (v ++ " " ++ (trimL (trimR (c :: tl))).asString)))
    ∧ (SMap.getValues (SMap.setLast hdr k
        (v ++ " " ++ (trimL (trimR (c :: tl))).asString)) k).getLast? =
        some (v ++ " " ++ (trimL (trimR (c :: tl))).asString)
    ∧ readHeaders ["Cookie: a,\r\n", " b\r\n", "\r\n"] = Except.ok ([("Cookie", ["a, b"])], [])
    ∧ readHeaders ["Cookie: a,\r\n", "\t  b\t\r\n", "\r\n"] =
        Except.ok ([("Cookie", ["a, b"])], []) := by
  refine ⟨?_, SMap.getLast_setLast hdr k v _ hv, by rfl, by rfl⟩
  conv_lhs => unfold readHeadersAux
  dsimp only
  rw [hp]
  simp only [List.isEmpty_cons, Bool.false_eq_true, if_false, ite_false]
  rw [if_neg (by omega : ¬(c :: tl).length > 4096)]
  try dsimp only
  rw [if_pos hsp, if_neg hlk, hv]
  try dsimp only
  rw [if_neg (by omega :
    ¬(v ++ " " ++ (trimL (trimR (c :: tl))).asString).length > 4096)]

/-- Witness for C7: one continuation step on the line space-b with current
key Cookie and last value a-comma folds to a-comma-space-b, and the spec
example blocks parse to that single value. -/
theorem readHeaders_continuation_fold_witness :
    (readHeadersAux ([" b\r\n"] : List String) "Cookie" 1 [("Cookie", ["a,"])] =
      if (trimL (trimR (' ' :: ['b']))).isEmpty
      then readHeadersAux [] "Cookie" 1 [("Cookie", ["a,"])]
      else readHeadersAux [] "Cookie" 1
        (SMap.setLast [("Cookie", ["a,"])] "Cookie"
          ("a," ++ " " ++ (trimL (trimR (' ' :: ['b']))).asString)))
    ∧ (SMap.getValues (SMap.setLast [("Cookie", ["a,"])] "Cookie"
        ("a," ++ " " ++ (trimL (trimR (' ' :: ['b']))).asString)) "Cookie").getLast? =
        some ("a," ++ " " ++ (trimL (trimR (' ' :: ['b']))).asString)
    ∧ readHeaders ["Cookie: a,\r\n", " b\r\n", "\r\n"] = Except.ok ([("Cookie", ["a, b"])], [])
    ∧ readHeaders ["Cookie: a,\r\n", "\t  b\t\r\n", "\r\n"] =
        Except.ok ([("Cookie", ["a, b"])], []) :=
  readHeaders_continuation_fold " b\r\n" [] "Cookie" 1 [("Cookie", ["a,"])] ' ' ['b'] "a,"
    (by decide) (by decide) (by decide) (by decide) (by decide) (by decide)

/-- Claim C9: a non-empty write to the chunked writer that hits no
underlying error emits the full chunk frame (hexadecimal length, CRLF, the
bytes, CRLF) on the stream, yet the call returns 0 rather than the length
of the input slice. -/
theorem chunkedWrite_frame_but_zero_return (c : Conn) (p : String)
    (h1 : c.responseErr = none) (h2 : p.length ≠ 0) :
    (chunkedWrite p c).1 = (0, none)
    ∧ (chunkedWrite p c).2.out = c.out ++ [hexOf p.length ++ "\r\n", p, "\r\n"]
    ∧ (chunkedWrite p c).1.1 ≠ p.length := by
  refine ⟨?_, ?_, ?_⟩ <;> simp [chunkedWrite, h1, h2]
  · exact fun hh => h2 hh.symm

/-- Witness for C9 at a concrete two-byte write on a fresh connection. -/
theorem chunkedWrite_frame_but_zero_return_witness :
    (chunkedWrite "hi" reqConn).1 = (0, none)
    ∧ (chunkedWrite "hi" reqConn).2.out = reqConn.out ++ [hexOf 2 ++ "\r\n", "hi", "\r\n"]
    ∧ (chunkedWrite "hi" reqConn).1.1 ≠ 2 :=
  chunkedWrite_frame_but_zero_return reqConn "hi" rfl (by decide)

/-- Claim C4: when the first route whose expression matches the path is
reached with no trailing-slash redirect pending and the captures unescape
cleanly, the handler is resolved exactly in the spec order (exact method,
then GET for HEAD, then the wildcard, else 405 and no further routes are
tried), and a path that no route matches resolves to 404. -/
theorem router_method_resolution (u : String → Option String) (pre post : List Route)
    (r : Route) (path method pathNM : String) (values values2 : List String)
    (h1 : ∀ r0 ∈ pre, r0.regexpMatch path = none)
    (h2 : r.regexpMatch path = some values)
    (h3 : ¬(r.addSlash = true ∧ lastChar path ≠ '/'))
    (h4 : unescapeAll u values = some values2)
    (h5 : ∀ r0 ∈ pre ++ r :: post, r0.regexpMatch pathNM = none) :
    find u (pre ++ r :: post) path method = resolveBySpec r.handlers r.names values2 method
    ∧ find u (pre ++ r :: post) pathNM method = (RHandler.routerError 404, [], []) := by
  constructor
  · rw [find_skip u pre (r :: post) path method h1]
    simp only [find, h2, h4]
    rw [if_neg h3]
    by_cases hm : method = "HEAD" <;> simp [resolveBySpec, hm]
  · exact find_nomatch u _ pathNM method h5

/-- Witness for C4: a POST against the GET-only route resolves to 405, and
an unmatched path resolves to 404. -/
theorem router_method_resolution_witness :
    find some [demoRoute] "/x" "POST" = resolveBySpec demoRoute.handlers demoRoute.names [] "POST"
    ∧ find some [demoRoute] "/y" "POST" = (RHandler.routerError 404, [], []) :=
  router_method_resolution some [] [] demoRoute "/x" "POST" "/y" [] []
    (by simp) (by decide) (by decide) rfl (by simp; decide)

/-- Claim C8: when the first matching route has the trailing-separator flag
and the path lacks the separator, find answers with the redirect handler
before any method resolution or parameter extraction, and the redirect
target is the path plus a trailing slash with the query component
preserved, issued as a permanent redirect. -/
theorem router_addSlash_redirect (u : String → Option String) (pre post : List Route)
    (r : Route) (path method rawQuery : String) (values : List String)
    (h1 : ∀ r0 ∈ pre, r0.regexpMatch path = none)
    (h2 : r.regexpMatch path = some values)
    (h3 : r.addSlash = true) (h4 : lastChar path ≠ '/') (h5 : path ≠ "") :
    find u (pre ++ r :: post) path method = (RHandler.addSlashH, [], [])
    ∧ addSlashAction path rawQuery =
        (if 0 < rawQuery.length then path ++ "/" ++ "?" ++ rawQuery else path ++ "/", true) := by
  constructor
  · rw [find_skip u pre (r :: post) path method h1]
    simp [find, h2, h3, h4]
  · rfl

/-- Witness for C8 at the spec example: the pattern slash-files-slash
against the path slash-files redirects to slash-files-slash keeping the
query, regardless of the request method. -/
theorem router_addSlash_redirect_witness :
    find some [demoSlashRoute] "/files" "POST" = (RHandler.addSlashH, [], [])
    ∧ addSlashAction "/files" "a=1" =
        (if 0 < ("a=1" : String).length then "/files" ++ "/" ++ "?" ++ "a=1" else "/files" ++ "/",
         true) :=
  router_addSlash_redirect some [] [] demoSlashRoute "/files" "POST" "a=1" []
    (by simp) (by decide) rfl (by decide) (by decide)

/-- Reading a freshly set key yields the set value. -/
theorem SMap.get_set_self (m : SMap) (k v : String) : SMap.get (SMap.set m k v) k = some v := by
  induction m with
  | nil => simp [SMap.set, SMap.get]
  | cons kv rest ih =>
    obtain ⟨k0, vs0⟩ := kv
    by_cases hk : k0 = k <;> simp [SMap.set, SMap.get, hk, ih]

/-- Setting one key leaves reads of other keys unchanged. -/
theorem SMap.get_set_ne (m : SMap) (k k' v : String) (h : k' ≠ k) :
    SMap.get (SMap.set m k v) k' = SMap.get m k' := by
  have h2 : ¬k = k' := fun hh => h hh.symm
  induction m with
  | nil => simp [SMap.set, SMap.get, h2]
  | cons kv rest ih =>
    obtain ⟨k0, vs0⟩ := kv
    by_cases hk : k0 = k
    · subst hk
      simp [SMap.set, SMap.get, h2]
    · simp [SMap.set, SMap.get, hk, ih]

/-- Setting one key leaves membership of other keys unchanged. -/
theorem SMap.hasKey_set_ne (m : SMap) (k k' v : String) (h : k' ≠ k) :
    SMap.hasKey (SMap.set m k v) k' = SMap.hasKey m k' := by
  have h2 : ¬k = k' := fun hh => h hh.symm
  induction m with
  | nil => simp [SMap.set, SMap.hasKey, h2]
  | cons kv rest ih =>
    obtain ⟨k0, vs0⟩ := kv
    by_cases hk : k0 = k
    · subst hk
      simp [SMap.set, SMap.hasKey, ih]
    · simp [SMap.set, SMap.hasKey, hk, ih]

/-- Deleting one key leaves reads of other keys unchanged. -/
theorem SMap.get_del_ne (m : SMap) (k k' : String) (h : k' ≠ k) :
    SMap.get (SMap.del m k) k' = SMap.get m k' := by
  have h2 : ¬k = k' := fun hh => h hh.symm
  induction m with
  | nil => simp [SMap.del, SMap.get]
  | cons kv rest ih =>
    obtain ⟨k0, vs0⟩ := kv
    simp only [SMap.del, List.filter_cons] at ih ⊢
    by_cases hk : k0 = k
    · subst hk
      simp [SMap.get, ih, h2]
    · by_cases hk2 : k0 = k'
      · simp [SMap.get, hk, hk2, ih, h]
      · simp [SMap.get, hk, hk2, ih, h]

/-- A deleted key is no longer a member. -/
theorem SMap.hasKey_del_self (m : SMap) (k : String) :
    SMap.hasKey (SMap.del m k) k = false := by
  induction m with
  | nil => simp [SMap.del, SMap.hasKey]
  | cons kv rest ih =>
    obtain ⟨k0, vs0⟩ := kv
    simp only [SMap.del, List.filter_cons] at ih ⊢
    by_cases hk : k0 = k
    · simp [hk, ih]
    · simp [SMap.hasKey, hk, ih]

/-- Claim C3: after Respond returns, chunked framing is selected, and the
Transfer-Encoding chunked header set, exactly when the caller supplied no
Content-Length and no Transfer-Encoding header, the status is not 304, and
close-after-response is not set (as it stands when the commit decision is
made, that is after the unread-request-body check); in particular an
explicit Content-Length always suppresses chunked framing. -/
theorem respond_chunked_selection (c : Conn) (status : Nat) (hdr : SMap)
    (hh : c.hijacked = false) (hr : c.respondCalled = false) :
    ((respond status hdr c).2.2.chunked = true ↔
      (SMap.get hdr "Content-Length" = none ∧ SMap.hasKey hdr "Transfer-Encoding" = false ∧
       status ≠ 304 ∧ (respond status hdr c).2.2.closeAfterResponse = false))
    ∧ ((respond status hdr c).2.2.chunked = true →
        SMap.get (respond status hdr c).2.1 "Transfer-Encoding" = some "chunked") := by
  by_cases h304 : status = 304 <;> by_cases hav : 0 < c.requestAvail <;>
    by_cases hcl : c.closeAfterResponse = true
  all_goals try (replace hcl : c.closeAfterResponse = false := by simpa using hcl)
  all_goals
    simp only [respond, hh, hr, h304, hav, hcl, Bool.false_eq_true, if_false, if_true,
      ite_true, ite_false, not_true, not_false_iff, SMap.get_del_ne, SMap.get_set_ne,
      SMap.hasKey_set_ne, SMap.hasKey_del_self, ne_eq, String.reduceEq,
      not_false_eq_true, reduceIte]
  all_goals
    cases hCL : SMap.get hdr "Content-Length" <;>
      simp [hCL, SMap.get_set_self, SMap.get_set_ne]
  all_goals
    cases hTE : SMap.hasKey hdr "Transfer-Encoding" <;>
      simp [hTE, SMap.get_set_self]

/-- Witness for C3 on a fresh keep-alive connection with an empty header
set: chunked framing is selected and the chunked header is set. -/
theorem respond_chunked_selection_witness :
    (((respond 200 [] reqConn).2.2.chunked = true ↔
      (SMap.get [] "Content-Length" = none ∧ SMap.hasKey [] "Transfer-Encoding" = false ∧
       (200 : Nat) ≠ 304 ∧ (respond 200 [] reqConn).2.2.closeAfterResponse = false))
    ∧ ((respond 200 [] reqConn).2.2.chunked = true →
        SMap.get (respond 200 [] reqConn).2.1 "Transfer-Encoding" = some "chunked")) ∧
    (respond 200 [] reqConn).2.2.chunked = true :=
  ⟨respond_chunked_selection reqConn 200 [] rfl rfl, by decide⟩

/-- A prepared connection carries the Expect-derived 100-continue flag, no
latched request error and an empty stream transcript. -/
theorem prepareCore_ok_fields (hdr : SMap) (maj mn br : Nat) (c0 : Conn)
    (h : prepareCore hdr maj mn br = Except.ok c0) :
    c0.write100Continue = expects100 hdr ∧ c0.requestErr = none ∧ c0.out = [] := by
  unfold prepareCore at h
  cases hCL : SMap.get hdr "Content-Length" with
  | none =>
    rw [hCL] at h
    dsimp only at h
    split at h <;> (try split at h) <;> (try split at h)
    all_goals simp only [Except.ok.injEq] at h
    all_goals subst h
    all_goals simp
  | some s =>
    rw [hCL] at h
    dsimp only at h
    cases hA : atoi s with
    | none => rw [hA] at h; simp at h
    | some n =>
      rw [hA] at h
      dsimp only at h
      split at h <;> (try split at h) <;> (try split at h)
      all_goals simp only [Except.ok.injEq] at h
      all_goals subst h
      all_goals simp

/-- A body read on a connection that owes no 100-continue leaves the stream
transcript and the flag unchanged. -/
theorem bodyRead_preserve_out (n : Nat) (c : Conn) (h : c.write100Continue = false) :
    (bodyRead n c).2.out = c.out ∧ (bodyRead n c).2.write100Continue = false := by
  unfold bodyRead
  cases hre : c.requestErr with
  | some e => simp [h]
  | none => simp only [h, Bool.false_eq_true, if_false]; split <;> simp [h]

/-- The first body read on a connection that owes a 100-continue writes the
interim response once and clears the flag. -/
theorem bodyRead_emit (n : Nat) (c : Conn) (he : c.requestErr = none)
    (hf : c.write100Continue = true) :
    (bodyRead n c).2.out = c.out ++ [continue100]
    ∧ (bodyRead n c).2.write100Continue = false := by
  unfold bodyRead
  rw [he]
  simp only [hf, if_true, ite_true]
  split <;> simp

/-- Reads never touch the transcript once the 100-continue flag is clear,
and the flag stays clear. -/
theorem readMany_preserve (sizes : List Nat) : ∀ c : Conn, c.write100Continue = false →
    (readMany c sizes).out = c.out ∧ (readMany c sizes).write100Continue = false := by
  induction sizes with
  | nil => intro c h; exact ⟨rfl, h⟩
  | cons n rest ih =>
    intro c h
    have hb := bodyRead_preserve_out n c h
    have hstep : readMany c (n :: rest) = readMany (bodyRead n c).2 rest := by
      simp [readMany]
    rw [hstep]
    have := ih (bodyRead n c).2 hb.2
    exact ⟨by rw [this.1, hb.1], this.2⟩

/-- Claim C6: over any sequence of request-body reads on a freshly prepared
connection, the interim response HTTP/1.1 100 Continue is written exactly
once when the request declared Expect 100-continue (case-insensitively)
and at least one read happens, and never otherwise; the write happens on
the first read. -/
theorem continue100_emitted_exactly_once (hdr : SMap) (maj mn brRem : Nat)
    (sizes : List Nat) (c0 : Conn)
    (h : prepareCore hdr maj mn brRem = Except.ok c0) :
    countContinue (readMany c0 sizes) =
      if expects100 hdr && !sizes.isEmpty then 1 else 0 := by
  obtain ⟨hw, he, ho⟩ := prepareCore_ok_fields hdr maj mn brRem c0 h
  cases sizes with
  | nil => simp [readMany, countContinue, ho]
  | cons n rest =>
    cases hex : expects100 hdr with
    | false =>
      have hw0 : c0.write100Continue = false := by rw [hw, hex]
      have hpre := readMany_preserve (n :: rest) c0 hw0
      unfold countContinue
      rw [hpre.1, ho]
      simp [hex]
    | true =>
      have hw1 : c0.write100Continue = true := by rw [hw, hex]
      have hb := bodyRead_emit n c0 he hw1
      have hstep : readMany c0 (n :: rest) = readMany (bodyRead n c0).2 rest := by
        simp [readMany]
      have hpre := readMany_preserve rest (bodyRead n c0).2 hb.2
      unfold countContinue
      rw [hstep, hpre.1, hb.1, ho]
      simp [hex]

/-- Witness for C6: with Expect 100-continue the interim response count is
one after a read, and without the header it is zero. -/
theorem continue100_emitted_exactly_once_witness :
    prepareCore [("Expect", ["100-continue"])] 1 1 0 =
      Except.ok { reqConn with write100Continue := true }
    ∧ countContinue (readMany { reqConn with write100Continue := true } [4]) =
        if expects100 [("Expect", ["100-continue"])] && !([4] : List Nat).isEmpty then 1 else 0 :=
  ⟨by rfl,
   continue100_emitted_exactly_once [("Expect", ["100-continue"])] 1 1 0 [4]
     { reqConn with write100Continue := true } (by rfl)⟩

/-- Buffered body writes only grow the pending buffer; every other
connection field is untouched. -/
theorem foldl_bwWrite_fields (writes : List String) : ∀ c : Conn,
    (writes.foldl (fun acc p => bwWrite p acc) c).closeAfterResponse = c.closeAfterResponse
    ∧ (writes.foldl (fun acc p => bwWrite p acc) c).chunked = c.chunked
    ∧ (writes.foldl (fun acc p => bwWrite p acc) c).respondCalled = c.respondCalled
    ∧ (writes.foldl (fun acc p => bwWrite p acc) c).responseAvail = c.responseAvail := by
  induction writes with
  | nil => intro c; exact ⟨rfl, rfl, rfl, rfl⟩
  | cons w rest ih =>
    intro c
    have hstep : (w :: rest).foldl (fun acc p => bwWrite p acc) c =
        rest.foldl (fun acc p => bwWrite p acc) (bwWrite w c) := by
      simp
    rw [hstep]
    exact ih (bwWrite w c)

/-- Flushing the buffered writer never changes the close-after-response
decision nor the framing selection. -/
theorem bwFlush_preserve (c : Conn) :
    (bwFlush c).closeAfterResponse = c.closeAfterResponse
    ∧ (bwFlush c).chunked = c.chunked := by
  unfold bwFlush chunkedWrite identityWrite
  cases hre : c.responseErr <;> (repeat' split) <;> simp_all

/-- A response committed with an explicit Content-Length header selects
identity framing, parses the declared length into the remaining-response
counter and marks the response started. -/
theorem respond_contentLength_fields (c : Conn) (status : Nat) (hdr : SMap) (s : String)
    (hh : c.hijacked = false) (hr : c.respondCalled = false)
    (hcl : SMap.get hdr "Content-Length" = some s) :
    (respond status hdr c).2.2.responseAvail = (atoi s).getD 0
    ∧ (respond status hdr c).2.2.chunked = false
    ∧ (respond status hdr c).2.2.respondCalled = true := by
  by_cases h304 : status = 304 <;> by_cases hav : 0 < c.requestAvail <;>
    by_cases hcl2 : c.closeAfterResponse = true
  all_goals try (replace hcl2 : c.closeAfterResponse = false := by simpa using hcl2)
  all_goals
    simp [respond, hh, hr, h304, hav, hcl2, SMap.get_del_ne, SMap.get_set_ne, hcl]

/-- Tail of finish after the forced-close decision: the flush, the chunked
terminator and the error latch never clear close-after-response. -/
theorem close_tail (e : Conn) (h : e.closeAfterResponse = true) :
    (if (if e.chunked = true then { e with out := e.out ++ ["0\r\n\r\n"] } else e).responseErr
          = none
       then { (if e.chunked = true then { e with out := e.out ++ ["0\r\n\r\n"] } else e) with
              responseErr := some "response body closed" }
       else (if e.chunked = true then { e with out := e.out ++ ["0\r\n\r\n"] } else e)
     ).closeAfterResponse = true := by
  by_cases hc : e.chunked = true <;> simp only [hc, ite_true, if_true, Bool.false_eq_true,
    if_false, ite_false] <;> split <;> simp [h]

/-- A finalize on a state with the response started and a nonzero
remaining-length counter ends with close-after-response set. -/
theorem finish_close_of (d : Conn) (h1 : d.respondCalled = true) (h2 : d.responseAvail ≠ 0) :
    (finish d).closeAfterResponse = true := by
  unfold finish
  dsimp only
  simp only [h1, eq_self_iff_true, ite_true, if_true, ne_eq]
  rw [if_pos h2]
  exact close_tail _ ((bwFlush_preserve _).1.trans rfl)

/-- Claim C1 as amended: when a response is committed with an explicit
Content-Length header whose parsed value is nonzero and the application
only writes to the body sink (no flush reaches the stream before
finalize), close-after-response is true by the time finalize completes,
even when the written bytes exactly match the declared length: the
headers and body are still buffered, so the remaining-length counter
still holds the full declared value when finish checks it. -/
theorem finish_forces_close_when_buffered (c : Conn) (status : Nat) (hdr : SMap)
    (writes : List String) (s : String) (n : Int)
    (hh : c.hijacked = false) (hr : c.respondCalled = false)
    (hcl : SMap.get hdr "Content-Length" = some s) (ha : atoi s = some n) (hn : n ≠ 0) :
    (finish (writes.foldl (fun acc p => bwWrite p acc)
      (respond status hdr c).2.2)).closeAfterResponse = true := by
  obtain ⟨hAvail, hChunk, hCalled⟩ := respond_contentLength_fields c status hdr s hh hr hcl
  obtain ⟨f1, f2, f3, f4⟩ := foldl_bwWrite_fields writes (respond status hdr c).2.2
  apply finish_close_of
  · rw [f3, hCalled]
  · rw [f4, hAvail, ha]; exact hn

/-- Witness for the amended C1: declared length 5, one buffered write of
exactly those 5 bytes and no flush before finalize; the connection is
marked for close. -/
theorem finish_forces_close_when_buffered_witness :
    (finish ((["hello"] : List String).foldl (fun acc p => bwWrite p acc)
      (respond 200 [("Content-Length", ["5"])] reqConn).2.2)).closeAfterResponse = true :=
  finish_forces_close_when_buffered reqConn 200 [("Content-Length", ["5"])] ["hello"] "5" 5
    rfl rfl (by rfl) (by rfl) (by decide)

/-- Counterexample to C1 as stated: a response committed with the explicit
Content-Length 64 and a non-empty body of exactly 64 bytes (25 written,
then the body sink flushed, then 39 more) finishes with
close-after-response still false, because finish compares the declared
length against the bytes already flushed (headers included) before it
flushes the rest; the mid-response flush pushed exactly 64 bytes (39 bytes
of head plus 25 of body), zeroing the counter.  The connection would be
reused despite the length-declared response. -/
theorem finish_exact_flush_counterexample :
    cexFinal.closeAfterResponse = false
    ∧ cexWrite1.length + cexWrite2.length = 64
    ∧ SMap.get cexHeader "Content-Length" = some "64"
    ∧ atoi "64" = some 64
    ∧ (respond 200 cexHeader reqConn).2.2.respondCalled = true
    ∧ prepareCore [] 1 1 0 = Except.ok reqConn := by
  refine ⟨by decide, by decide, by decide, by decide, by decide, by rfl⟩

/-- Fuel irrelevance for the placeholder count: any fuel above the input
length gives the same count, so the fuel is a ghost bound. -/
theorem countNamedAux_fuel : ∀ f1 : Nat, ∀ f2 cs, cs.length < f1 → cs.length < f2 →
    countNamedAux f1 cs = countNamedAux f2 cs := by
  intro f1
  induction f1 with
  | zero => intro f2 cs h1 h2; omega
  | succ f ih =>
    intro f2 cs h1 h2
    cases f2 with
    | zero => omega
    | succ f2p =>
      unfold countNamedAux
      cases hf : findPH cs with
      | none => rfl
      | some r =>
        obtain ⟨pre, name, rx, rest⟩ := r
        have hlt := findPH_rest_lt cs pre name rx rest hf
        dsimp only
        rw [ih f2p rest (by omega) (by omega)]

/-- Fuel irrelevance for the compiler loop: any fuel above the input
length gives the same result, so the fuel is a ghost bound. -/
theorem compileAux_fuel : ∀ f1 : Nat, ∀ f2 cs sep i names buf, cs.length < f1 →
    cs.length < f2 →
    compileAux f1 cs sep i names buf = compileAux f2 cs sep i names buf := by
  intro f1
  induction f1 with
  | zero => intro f2 cs sep i names buf h1 h2; omega
  | succ f ih =>
    intro f2 cs sep i names buf h1 h2
    cases f2 with
    | zero => omega
    | succ f2p =>
      unfold compileAux
      cases hf : findPH cs with
      | none => rfl
      | some r =>
        obtain ⟨pre, name, rx, rest⟩ := r
        have hlt := findPH_rest_lt cs pre name rx rest hf
        dsimp only
        by_cases hne : name.isEmpty <;> simp only [hne, ite_true, if_true,
          Bool.false_eq_true, if_false, ite_false]
        · exact ih f2p rest sep i names _ (by omega) (by omega)
        · by_cases hi : i < 8 <;> simp only [hi, ite_true, if_true, if_false, ite_false]
          exact ih f2p rest sep (i + 1) _ _ (by omega) (by omega)

/-- The compiler loop panics (returns none) whenever the names written so
far plus the named placeholders still to come exceed the fixed array
length 8. -/
theorem compileAux_none_of_overflow : ∀ fuel : Nat, ∀ cs sep i names buf,
    cs.length < fuel → i ≤ 8 → 8 < i + countNamedAux fuel cs →
    compileAux fuel cs sep i names buf = none := by
  intro fuel
  induction fuel with
  | zero => intro cs sep i names buf h1 h2 h3; omega
  | succ f ih =>
    intro cs sep i names buf h1 h2 h3
    unfold compileAux
    unfold countNamedAux at h3
    cases hf : findPH cs with
    | none => rw [hf] at h3; dsimp only at h3; omega
    | some r =>
      obtain ⟨pre, name, rx, rest⟩ := r
      rw [hf] at h3
      have hlt := findPH_rest_lt cs pre name rx rest hf
      dsimp only
      by_cases hne : name.isEmpty <;>
        simp only [hne, ite_true, if_true, Bool.false_eq_true, if_false, ite_false] <;>
        simp only [hne, ite_true, if_true, Bool.false_eq_true, if_false, ite_false] at h3
      · exact ih rest sep i names _ (by omega) h2 (by omega)
      · by_cases hi : i < 8 <;> simp only [hi, ite_true, if_true, if_false, ite_false]
        exact ih rest sep (i + 1) _ _ (by omega) (by omega) (by omega)

/-- Claim C10: a pattern with more than 8 named placeholders makes the
pattern compiler panic with an index-out-of-range write into the fixed
8-entry name array (none in the model), for any trailing-slash flag and
separator class, and registering such a pattern panics as well. -/
theorem compilePattern_overflow_panics (p : String) (aS : Bool) (sep : String)
    (h : 8 < countNamed p.toList) :
    compilePattern p aS sep = none ∧ registerPattern p = none := by
  have key : ∀ aS2 : Bool, ∀ sep2 : String, compilePattern p aS2 sep2 = none := by
    intro aS2 sep2
    unfold compilePattern
    rw [compileAux_none_of_overflow (p.toList.length + 1) p.toList sep2 0
      (List.replicate 8 "") ['^'] (by omega) (by omega) (by unfold countNamed at h; omega)]
  refine ⟨key aS sep, ?_⟩
  unfold registerPattern
  cases hl : p.toList with
  | nil => rfl
  | cons c rest =>
    by_cases hc : c = '/'
    · simp only [hc, ne_eq, eq_self_iff_true, not_true, if_false, ite_false]
      rw [key (lastChar p == '/') "/"]
    · simp [hc]

/-- Witness for C10: a nine-placeholder path pattern panics both in the
compiler and at registration. -/
theorem compilePattern_overflow_panics_witness :
    compilePattern "/<a><b><c><d><e><f><g><h><i>" false "/" = none
    ∧ registerPattern "/<a><b><c><d><e><f><g><h><i>" = none :=
  compilePattern_overflow_panics "/<a><b><c><d><e><f><g><h><i>" false "/" (by decide)

/-- Length of a packed char list. -/
theorem asString_length (l : List Char) : l.asString.length = l.length := rfl

/-- Left trimming never lengthens a char list. -/
theorem length_trimL_le (cs : List Char) : (trimL cs).length ≤ cs.length := by
  unfold trimL
  exact (List.dropWhile_sublist _).length_le

/-- Right trimming never lengthens a char list. -/
theorem length_trimR_le (cs : List Char) : (trimR cs).length ≤ cs.length := by
  unfold trimR
  rw [List.length_reverse]
  have h : (cs.reverse.dropWhile (fun c => isSpaceB c)).Sublist cs.reverse :=
    List.dropWhile_sublist _
  have h2 := h.length_le
  rw [List.length_reverse] at h2
  exact h2

/-- Appending a bounded value preserves the bound on all stored values. -/
theorem vb_append : ∀ (m : SMap) (k v : String),
    (∀ kv ∈ m, ∀ w ∈ kv.2, w.length ≤ 4096) → v.length ≤ 4096 →
    ∀ kv ∈ SMap.append m k v, ∀ w ∈ kv.2, w.length ≤ 4096 := by
  intro m
  induction m with
  | nil =>
    intro k v hm hv kv hkv w hw
    simp only [SMap.append, List.mem_singleton] at hkv
    subst hkv
    simp only [List.mem_singleton] at hw
    subst hw
    exact hv
  | cons kv0 rest ih =>
    obtain ⟨k0, vs0⟩ := kv0
    intro k v hm hv kv hkv w hw
    by_cases hk : k0 = k
    · simp only [SMap.append, hk, eq_self_iff_true, ite_true, if_true] at hkv
      rcases List.mem_cons.mp hkv with h1 | h2
      · subst h1
        rcases List.mem_append.mp hw with hw1 | hw2
        · exact hm (k0, vs0) (by simp) w hw1
        · simp only [List.mem_singleton] at hw2
          subst hw2
          exact hv
      · exact hm kv (by simp [h2]) w hw
    · simp only [SMap.append, hk, ite_false, if_false] at hkv
      rcases List.mem_cons.mp hkv with h1 | h2
      · subst h1
        exact hm (k0, vs0) (by simp) w hw
      · exact ih k v (fun kv2 hkv2 w2 hw2 => hm kv2 (by simp [hkv2]) w2 hw2) hv kv h2 w hw

/-- Overwriting a key's last value with a bounded one preserves the bound
on all stored values. -/
theorem vb_setLast : ∀ (m : SMap) (k v : String),
    (∀ kv ∈ m, ∀ w ∈ kv.2, w.length ≤ 4096) → v.length ≤ 4096 →
    ∀ kv ∈ SMap.setLast m k v, ∀ w ∈ kv.2, w.length ≤ 4096 := by
  intro m
  induction m with
  | nil => intro k v hm hv kv hkv w hw; simp [SMap.setLast] at hkv
  | cons kv0 rest ih =>
    obtain ⟨k0, vs0⟩ := kv0
    intro k v hm hv kv hkv w hw
    by_cases hk : k0 = k
    · simp only [SMap.setLast, hk, eq_self_iff_true, ite_true, if_true] at hkv
      rcases List.mem_cons.mp hkv with h1 | h2
      · subst h1
        rcases List.mem_append.mp hw with hw1 | hw2
        · exact hm (k0, vs0) (by simp) w ((List.dropLast_sublist vs0).subset hw1)
        · simp only [List.mem_singleton] at hw2
          subst hw2
          exact hv
      · exact hm kv (by simp [h2]) w hw
    · simp only [SMap.setLast, hk, ite_false, if_false] at hkv
      rcases List.mem_cons.mp hkv with h1 | h2
      · subst h1
        exact hm (k0, vs0) (by simp) w hw
      · exact ih k v (fun kv2 hkv2 w2 hw2 => hm kv2 (by simp [hkv2]) w2 hw2) hv kv h2 w hw

/-- Size-limit invariant of the header-reading loop: a successful run
keeps every stored value within the value bound, consumes lines that are
all within the line bound, and keeps the running header count within the
count bound. -/
theorem readHeadersAux_limits : ∀ (lines : List String) (k : String) (cnt : Nat) (h : SMap)
    (hdr : SMap) (rest : List String),
    cnt ≤ 256 → (∀ kv ∈ h, ∀ v ∈ kv.2, v.length ≤ 4096) →
    readHeadersAux lines k cnt h = Except.ok (hdr, rest) →
    (∀ kv ∈ hdr, ∀ v ∈ kv.2, v.length ≤ 4096) ∧
    ∃ consumed : List String, lines = consumed ++ rest ∧
      (∀ l ∈ consumed, (stripEol l.toList).length ≤ 4096) ∧
      cnt + consumed.countP (fun l => isNewHeaderLine l) ≤ 256 := by
  intro lines
  induction lines with
  | nil =>
    intro k cnt h hdr rest hc hv hok
    simp [readHeadersAux] at hok
  | cons line rest0 ih =>
    intro k cnt h hdr rest hc hv hok
    unfold readHeadersAux at hok
    dsimp only at hok
    by_cases h1 : (stripEol line.toList).isEmpty
    · rw [if_pos h1] at hok
      simp only [Except.ok.injEq, Prod.mk.injEq] at hok
      obtain ⟨hh1, hh2⟩ := hok
      subst hh1
      subst hh2
      have h0 : stripEol line.toList = [] := by
        cases hss : stripEol line.toList
        · rfl
        · rw [hss] at h1; simp at h1
      have hnew : isNewHeaderLine line = false := by
        unfold isNewHeaderLine
        rw [h0]
      refine ⟨hv, [line], by simp, ?_, ?_⟩
      · intro l hl
        simp only [List.mem_singleton] at hl
        subst hl
        rw [h0]
        simp
      · simp [List.countP_cons, hnew]
        omega
    · rw [if_neg h1] at hok
      by_cases h2 : (stripEol line.toList).length > 4096
      · rw [if_pos h2] at hok
        simp at hok
      · rw [if_neg h2] at hok
        cases hp : stripEol line.toList with
        | nil => rw [hp] at h1; simp at h1
        | cons c tail =>
          rw [hp] at hok h2
          dsimp only at hok
          have hlineb : ∀ l ∈ [line], (stripEol l.toList).length ≤ 4096 := by
            intro l hl
            simp only [List.mem_singleton] at hl
            subst hl
            rw [hp]
            omega
          by_cases hsp : isSpaceB c
          · rw [if_pos hsp] at hok
            have hnew : isNewHeaderLine line = false := by
              unfold isNewHeaderLine
              rw [hp]
              simp [hsp]
            by_cases hlk : k = ""
            · rw [if_pos hlk] at hok
              simp at hok
            · rw [if_neg hlk] at hok
              by_cases hq : (trimL (trimR (c :: tail))).isEmpty
              · rw [if_pos hq] at hok
                obtain ⟨vbr, consumed, heq, hlb, hcnt⟩ :=
                  ih k cnt h hdr rest hc hv hok
                refine ⟨vbr, line :: consumed, by simp [heq], ?_, ?_⟩
                · intro l hl
                  rcases List.mem_cons.mp hl with hl1 | hl2
                  · exact hlineb l (by simp [hl1])
                  · exact hlb l hl2
                · simp only [List.countP_cons, hnew, Bool.false_eq_true, if_false, ite_false]
                  omega
              · rw [if_neg hq] at hok
                cases hgl : (SMap.getValues h k).getLast? with
                | none =>
                  rw [hgl] at hok
                  simp at hok
                | some v =>
                  rw [hgl] at hok
                  try dsimp only at hok
                  by_cases hv2 :
                      (v ++ " " ++ (trimL (trimR (c :: tail))).asString).length > 4096
                  · rw [if_pos hv2] at hok
                    simp at hok
                  · rw [if_neg hv2] at hok
                    have hvb2 := vb_setLast h k
                      (v ++ " " ++ (trimL (trimR (c :: tail))).asString) hv (by omega)
                    obtain ⟨vbr, consumed, heq, hlb, hcnt⟩ :=
                      ih k cnt _ hdr rest hc hvb2 hok
                    refine ⟨vbr, line :: consumed, by simp [heq], ?_, ?_⟩
                    · intro l hl
                      rcases List.mem_cons.mp hl with hl1 | hl2
                      · exact hlineb l (by simp [hl1])
                      · exact hlb l hl2
                    · simp only [List.countP_cons, hnew, Bool.false_eq_true, if_false,
                        ite_false]
                      omega
          · rw [if_neg hsp] at hok
            try dsimp only at hok
            have hnew : isNewHeaderLine line = true := by
              unfold isNewHeaderLine
              rw [hp]
              simp [hsp]
            by_cases hct : cnt + 1 > 256
            · rw [if_pos hct] at hok
              simp at hok
            · rw [if_neg hct] at hok
              by_cases hi : ((c :: tail).takeWhile isTokenB).length < 1
              · rw [if_pos hi] at hok
                simp at hok
              · rw [if_neg hi] at hok
                cases hp2 : trimL ((c :: tail).drop ((c :: tail).takeWhile isTokenB).length) with
                | nil =>
                  rw [hp2] at hok
                  simp at hok
                | cons c2 p3 =>
                  rw [hp2] at hok
                  try dsimp only at hok
                  by_cases hc2 : c2 ≠ ':'
                  · rw [if_pos hc2] at hok
                    simp at hok
                  · rw [if_neg hc2] at hok
                    have hval : ((trimR (trimL p3)).asString).length ≤ 4096 := by
                      have e1 : (trimR (trimL p3)).length ≤ p3.length :=
                        le_trans (length_trimR_le _) (length_trimL_le _)
                      have e2 : p3.length <
                          (trimL ((c :: tail).drop
                            ((c :: tail).takeWhile isTokenB).length)).length := by
                        rw [hp2]
                        simp
                      have e3 := length_trimL_le
                        ((c :: tail).drop ((c :: tail).takeWhile isTokenB).length)
                      have e4 : ((c :: tail).drop
                          ((c :: tail).takeWhile isTokenB).length).length ≤
                          (c :: tail).length := by
                        simp [List.length_drop]
                      rw [asString_length]
                      omega
                    have hvb2 := vb_append h
                      (canonName ((c :: tail).take ((c :: tail).takeWhile isTokenB).length))
                      ((trimR (trimL p3)).asString) hv hval
                    obtain ⟨vbr, consumed, heq, hlb, hcnt⟩ :=
                      ih _ (cnt + 1) _ hdr rest (by omega) hvb2 hok
                    refine ⟨vbr, line :: consumed, by simp [heq], ?_, ?_⟩
                    · intro l hl
                      rcases List.mem_cons.mp hl with hl1 | hl2
                      · exact hlineb l (by simp [hl1])
                      · exact hlb l hl2
                    · simp only [List.countP_cons, hnew, eq_self_iff_true, if_true, ite_true]
                      omega

/-- Claim C5: whenever header parsing succeeds, every line it consumed was
within the 4096-byte line limit, every accumulated (folded) header value
is within the 4096-byte value limit, and no more than 256 distinct header
lines were processed; contrapositively, any violation of those limits
cannot produce a parsed header block, it fails with an error instead of
silently truncating. -/
theorem readHeaders_limit_enforcement (lines : List String) (hdr : SMap)
    (rest : List String) (hok : readHeaders lines = Except.ok (hdr, rest)) :
    (∀ kv ∈ hdr, ∀ v ∈ kv.2, v.length ≤ 4096) ∧
    ∃ consumed : List String, lines = consumed ++ rest ∧
      (∀ l ∈ consumed, (stripEol l.toList).length ≤ 4096) ∧
      consumed.countP (fun l => isNewHeaderLine l) ≤ 256 := by
  obtain ⟨hvb, consumed, heq, hlb, hcnt⟩ :=
    readHeadersAux_limits lines "" 0 [] hdr rest (by omega) (by simp) hok
  exact ⟨hvb, consumed, heq, hlb, by omega⟩

/-- Witness for C5 on a two-line header block that parses successfully:
the bounds hold on the consumed lines, values and header count. -/
theorem readHeaders_limit_enforcement_witness :
    readHeaders ["Host: example.com\r\n", "\r\n"] =
      Except.ok ([("Host", ["example.com"])], [])
    ∧ ((∀ kv ∈ ([("Host", ["example.com"])] : SMap), ∀ v ∈ kv.2, v.length ≤ 4096) ∧
       ∃ consumed : List String,
         (["Host: example.com\r\n", "\r\n"] : List String) = consumed ++ [] ∧
         (∀ l ∈ consumed, (stripEol l.toList).length ≤ 4096) ∧
         consumed.countP (fun l => isNewHeaderLine l) ≤ 256) :=
  ⟨by rfl, readHeaders_limit_enforcement ["Host: example.com\r\n", "\r\n"]
    [("Host", ["example.com"])] [] (by rfl)⟩

end Twister
